import Mathlib

set_option maxRecDepth 100000

/-!
Verification of the go-markdown-server request pipeline (main.go).

The Go source is shallowly embedded: strings are Lean strings (Go iterates
runes, Lean `String.data` is the corresponding list of unicode scalars),
the filesystem is an explicit map from path strings to entries, and the
standard-library helpers from the `strings` and `path/filepath` packages
that the server calls are reimplemented below, following the Go source of
those functions (Unix path semantics, the build target of the repository).
-/

/-- Model of Go `strings.HasPrefix`. -/
def hasPrefixGo (s pre : String) : Bool :=
  pre.data.isPrefixOf s.data

/-- Model of Go `strings.HasSuffix`. -/
def hasSuffixGo (s suf : String) : Bool :=
  suf.data.isSuffixOf s.data

/-- Boolean infix test on lists: `hasInfixGo l p` is true iff `p` occurs
contiguously inside `l`. -/
def hasInfixGo (l p : List Char) : Bool :=
  p.isPrefixOf l ||
    match l with
    | [] => false
    | _ :: t => hasInfixGo t p

/-- Model of Go `strings.Contains`. -/
def containsGo (s sub : String) : Bool :=
  hasInfixGo s.data sub.data

/-- Model of Go `strings.TrimPrefix`: drop `pre` when it is a prefix,
otherwise return the string unchanged. -/
def trimPrefixGo (s pre : String) : String :=
  if pre.data.isPrefixOf s.data then ⟨s.data.drop pre.data.length⟩ else s

/-- Model of Go `unicode.IsSpace`: the Unicode White_Space code points. -/
def isSpaceGo (c : Char) : Bool :=
  decide (c.val = 9 ∨ c.val = 10 ∨ c.val = 11 ∨ c.val = 12 ∨ c.val = 13 ∨
    c.val = 32 ∨ c.val = 0x85 ∨ c.val = 0xA0 ∨ c.val = 0x1680 ∨
    (0x2000 ≤ c.val ∧ c.val ≤ 0x200A) ∨ c.val = 0x2028 ∨ c.val = 0x2029 ∨
    c.val = 0x202F ∨ c.val = 0x205F ∨ c.val = 0x3000)

/-- Drop leading whitespace characters. -/
def dropSpaceGo : List Char → List Char
  | [] => []
  | c :: cs => if isSpaceGo c then dropSpaceGo cs else c :: cs

/-- Model of Go `strings.TrimSpace`: remove leading and trailing
Unicode whitespace. -/
def trimSpaceGo (s : String) : String :=
  ⟨(dropSpaceGo (dropSpaceGo s.data).reverse).reverse⟩

/-- Split a character list at every occurrence of `c`; models Go
`strings.Split` with a one-character separator (the only separators the
server uses are the slash and the newline). -/
def splitOnCharGo (c : Char) : List Char → List (List Char)
  | [] => [[]]
  | x :: xs =>
    let r := splitOnCharGo c xs
    if x = c then [] :: r
    else
      match r with
      | [] => [[x]]
      | h :: t => (x :: h) :: t

/-- Model of Go `strings.Split` for a one-character separator. -/
def splitGo (s : String) (c : Char) : List String :=
  (splitOnCharGo c s.data).map String.mk

/-- Concatenate character lists with a separator character between them. -/
def intercalateCharGo (c : Char) : List (List Char) → List Char
  | [] => []
  | [x] => x
  | x :: y :: t => x ++ c :: intercalateCharGo c (y :: t)

/-- Segment processing loop of Go `path/filepath.Clean` (Unix): drop empty
and dot segments; a dot-dot segment pops the previous segment when one is
available, is dropped at the root of a rooted path, and is kept otherwise.
The accumulator holds the output segments in reverse order. -/
def cleanSegsGo (rooted : Bool) (segs : List String) : List String :=
  (segs.foldl
    (fun out seg =>
      if seg = "" then out
      else if seg = "." then out
      else if seg = ".." then
        match out with
        | [] => if rooted then [] else [".."]
        | last :: rest => if last = ".." then ".." :: last :: rest else rest
      else seg :: out)
    []).reverse

/-- Model of Go `path/filepath.Clean` (Unix separators). -/
def cleanGo (path : String) : String :=
  if path = "" then "."
  else
    let rooted := "/".data.isPrefixOf path.data
    let segs := cleanSegsGo rooted ((splitOnCharGo '/' path.data).map String.mk)
    let body : String := ⟨intercalateCharGo '/' (segs.map String.data)⟩
    if rooted then "/" ++ body
    else if segs.isEmpty then "." else body

/-- Model of Go `path/filepath.Join`: drop empty elements, join the rest
with a slash, then clean; all empty yields the empty string. -/
def joinGo (elems : List String) : String :=
  let ne := elems.filter (fun e => e != "")
  if ne.isEmpty then ""
  else cleanGo ⟨intercalateCharGo '/' (ne.map String.data)⟩

/-- Model of Go `path/filepath.Abs` with the working directory passed
explicitly (the Go version reads it via `os.Getwd`, which is assumed to
succeed): an already-rooted path is cleaned, otherwise it is joined onto
the working directory. -/
def absGo (cwd path : String) : String :=
  if "/".data.isPrefixOf path.data then cleanGo path else joinGo [cwd, path]

/-- Path elements of a cleaned path, for the element-wise comparison loop
of Go `path/filepath.Rel`; a rooted path contributes the elements after
the leading slash, and the bare root contributes none. -/
def relSegsOf (p : String) : List String :=
  if p = "" then []
  else if p = "/" then []
  else if "/".data.isPrefixOf p.data then
    (splitOnCharGo '/' (p.data.drop 1)).map String.mk
  else (splitOnCharGo '/' p.data).map String.mk

/-- Strip the longest common leading run of equal elements from two
element lists, returning both remainders; models the element comparison
loop of Go `path/filepath.Rel`. -/
def dropCommonGo : List String → List String → List String × List String
  | [], ts => ([], ts)
  | b :: bs, [] => (b :: bs, [])
  | b :: bs, t :: ts =>
    if b = t then dropCommonGo bs ts else (b :: bs, t :: ts)

/-- Model of Go `path/filepath.Rel` (Unix): clean both paths, return a dot
for equal paths, fail when exactly one side is rooted or when the first
differing base element is a dot-dot, otherwise climb out of the remaining
base elements and descend into the remaining target elements. `none`
models the error return. -/
def relGo (base targ : String) : Option String :=
  let b0 := cleanGo base
  let t := cleanGo targ
  if t = b0 then some "."
  else
    let b := if b0 = "." then "" else b0
    let brooted := "/".data.isPrefixOf b.data
    let trooted := "/".data.isPrefixOf t.data
    if brooted ≠ trooted then none
    else
      let p := dropCommonGo (relSegsOf b) (relSegsOf t)
      match p.1 with
      | bh :: brest =>
        if bh = ".." then none
        else
          some ⟨intercalateCharGo '/'
            ((List.replicate (brest.length + 1) ".." ++ p.2).map String.data)⟩
      | [] => some ⟨intercalateCharGo '/' (p.2.map String.data)⟩

/-- The server configuration struct (main.go, `type Server`). -/
structure Server where
  contentDir : String
  port : String
  enableSecurityHeaders : Bool

/-- main.go `validatePath`: reject dangerous patterns, then allow only
ASCII letters, digits, dash, underscore, dot and slash. `true` models the
nil-error return, `false` the error return. -/
def validatePath (path : String) : Bool :=
  if containsGo path ".." || containsGo path "//" ||
      hasPrefixGo path "/" || containsGo path "\\" then false
  else
    path.data.all (fun c =>
      decide (('a' ≤ c ∧ c ≤ 'z') ∨ ('A' ≤ c ∧ c ≤ 'Z') ∨
        ('0' ≤ c ∧ c ≤ '9') ∨ c = '-' ∨ c = '_' ∨ c = '.' ∨ c = '/'))

/-- main.go `isPathSafe`: the containment check. Both the content
directory and the requested path are made absolute against the working
directory, and the requested path is safe when the relative path from the
content directory to it does not start with two dots. A failure of the
relative-path computation is unsafe. -/
def isPathSafe (s : Server) (cwd requestedPath : String) : Bool :=
  match relGo (absGo cwd s.contentDir) (absGo cwd requestedPath) with
  | none => false
  | some rel => !(hasPrefixGo rel "..")

/-- A filesystem entry: a regular file with its byte content, or a
directory. -/
inductive FSEntry where
  | file (content : String)
  | dir
deriving DecidableEq

/-- The filesystem, keyed by the path string handed to the `os` package
(`os.Stat` and `os.ReadFile` see the same view). `none` means the path
does not exist, which is exactly the `os.IsNotExist` case of `os.Stat`;
`os.ReadFile` succeeds exactly on regular files. -/
def FileSystem := String → Option FSEntry

/-- Response headers as an ordered association list. -/
abbrev Headers := List (String × String)

/-- Model of Go `http.Header.Set`: replace any existing value for the key
with the single given value. -/
def headerSet (h : Headers) (k v : String) : Headers :=
  h.filter (fun p => p.1 != k) ++ [(k, v)]

/-- An HTTP response: status code, body and headers. `http.Error` and
`http.NotFound` append a trailing newline to the message on the wire;
that transport detail is elided and `body` holds the message itself. -/
structure Response where
  status : Nat
  body : String
  headers : Headers
deriving DecidableEq

/-- Model of Go `http.Error`: plain-text content type, sniffing disabled,
the given status, and the message as body. -/
def httpError (h : Headers) (msg : String) (code : Nat) : Response :=
  { status := code
    body := msg
    headers := headerSet (headerSet h "Content-Type" "text/plain; charset=utf-8")
      "X-Content-Type-Options" "nosniff" }

/-- Model of Go `http.NotFound`: `http.Error` with the fixed 404 page. -/
def notFoundResp (h : Headers) : Response :=
  httpError h "404 page not found" 404

/-- The apostrophe character, kept out of string literals. -/
def apos : Char := Char.ofNat 39

/-- Escape one character as Go `html/template` does for a string value in
HTML text context (the `htmlReplacementTable`): the five markup-significant
characters become entities and the NUL byte becomes the replacement
character. -/
def escCharGo (c : Char) : List Char :=
  if c = '<' then "&lt;".data
  else if c = '>' then "&gt;".data
  else if c = '&' then "&amp;".data
  else if c = apos then "&#39;".data
  else if c = '"' then "&#34;".data
  else if c = Char.ofNat 0 then [Char.ofNat 0xFFFD]
  else [c]

/-- HTML-context escaping of a whole string, as Go `html/template`
applies to the `Title` field of the page template. -/
def htmlEscapeString (s : String) : String :=
  ⟨(s.data.map escCharGo).flatten⟩

/-- The parsed page template (main.go, the `tmpl` literal handed to
`template.New("page").Parse`): literal text around two fields. The
`Title` field has type `string`, so execution HTML-escapes it; the
`Content` field has type `template.HTML`, so execution inserts it
verbatim. -/
inductive TemplateNode where
  | text (s : String)
  | titleField
  | contentField

/-- Template text before the `Title` field. -/
def pageHeadText : String :=
  "<!DOCTYPE html>\n<html lang=\"en\">\n<head>\n    <meta charset=\"UTF-8\">\n    <meta name=\"viewport\" content=\"width=device-width, initial-scale=1.0\">\n    <title>"

/-- Template text between the `Title` field and the `Content` field. -/
def pageMidText : String :=
  "</title>\n    <link rel=\"stylesheet\" href=\"/style.css\">\n</head>\n<body>\n    <div class=\"container\">\n        <nav>\n            <a href=\"/\">Home</a>\n        </nav>\n        <main>\n            "

/-- Template text after the `Content` field. -/
def pageTailText : String :=
  "\n        </main>\n    </div>\n</body>\n</html>"

/-- The node list of the parsed page template. -/
def pageTemplateNodes : List TemplateNode :=
  [TemplateNode.text pageHeadText, TemplateNode.titleField,
   TemplateNode.text pageMidText, TemplateNode.contentField,
   TemplateNode.text pageTailText]

/-- Execution of one template node against the data struct. -/
def execTemplateNode (title fragment : String) : TemplateNode → String
  | TemplateNode.text s => s
  | TemplateNode.titleField => htmlEscapeString title
  | TemplateNode.contentField => fragment

/-- The page composition performed by `t.Execute` in `handleMarkdown`:
render every template node and concatenate. -/
def composePage (title fragment : String) : String :=
  String.join (pageTemplateNodes.map (execTemplateNode title fragment))

/-- Line scan of main.go `extractTitle`: the first line whose trimmed form
starts with a hash and a space yields the rest of that trimmed line,
otherwise the fixed default title. -/
def extractTitleLines : List String → String
  | [] => "Markdown Server"
  | line :: rest =>
    let t := trimSpaceGo line
    if hasPrefixGo t "# " then trimPrefixGo t "# " else extractTitleLines rest

/-- main.go `extractTitle`: split the content on newlines and scan. -/
def extractTitle (content : String) : String :=
  extractTitleLines (splitGo content '\n')

/-- The title extractor as the specification words it: the first line
whose whitespace-trimmed form begins with hash-space yields the remainder
of that trimmed line, and a fixed default title is returned when no line
matches. -/
def extractTitleSpec (content : String) : String :=
  match (splitGo content '\n').find? (fun l => hasPrefixGo (trimSpaceGo l) "# ") with
  | some l => trimPrefixGo (trimSpaceGo l) "# "
  | none => "Markdown Server"

/-- The gomarkdown library as consumed by main.go `markdownToHTML`: flag
constants, a parser and a renderer. The library is an external
collaborator of the repository; its functions are modeled as pure
functions of the configuration and the input, which is the interface the
specification assigns to it. -/
structure MarkdownLib (Doc : Type) where
  commonExtensions : Nat
  autoHeadingIDs : Nat
  commonFlags : Nat
  hrefTargetBlank : Nat
  parse : Nat → String → Doc
  render : Nat → Doc → String

/-- main.go `markdownToHTML`: build the extension and flag words from the
library constants, parse the input, render the document. The `world`
argument stands for every piece of process state the function could in
principle observe; the source passes none of it to the library. -/
def markdownToHTML {Doc : Type} (lib : MarkdownLib Doc) (world : Nat) (md : String) : String :=
  let extensions := lib.commonExtensions ||| lib.autoHeadingIDs
  let htmlFlags := lib.commonFlags ||| lib.hrefTargetBlank
  lib.render htmlFlags (lib.parse extensions md)

/-- The Content-Security-Policy string of main.go (single quotes written
via `apos` to keep them out of the literal). -/
def cspValue : String :=
  let q := fun (w : String) => String.singleton apos ++ w ++ String.singleton apos
  "default-src " ++ q "self" ++ "; " ++
  "style-src " ++ q "self" ++ " " ++ q "unsafe-inline" ++ "; " ++
  "script-src " ++ q "self" ++ "; " ++
  "img-src " ++ q "self" ++ " data: https:; " ++
  "font-src " ++ q "self" ++ "; " ++
  "connect-src " ++ q "self" ++ "; " ++
  "frame-ancestors *; " ++
  "base-uri " ++ q "self"

/-- The five header writes of `securityHeadersMiddleware`, in source
order. -/
def securityHeaders (h : Headers) : Headers :=
  headerSet (headerSet (headerSet (headerSet (headerSet h
    "X-Content-Type-Options" "nosniff")
    "X-XSS-Protection" "1; mode=block")
    "Referrer-Policy" "strict-origin-when-cross-origin")
    "X-Permitted-Cross-Domain-Policies" "none")
    "Content-Security-Policy" cspValue

/-- main.go `securityHeadersMiddleware`: when the flag is enabled, set the
five security headers on the response writer, then call the wrapped
handler; otherwise call it on the untouched writer. The wrapped handler is
abstracted as a function from the writer header state to the response. -/
def securityHeadersMiddleware (s : Server) (next : Headers → Response) (h : Headers) : Response :=
  if s.enableSecurityHeaders then next (securityHeaders h) else next h

/-- The URL path as `handleMarkdown` computes it before validation: strip
one leading slash, and treat the empty result as `index.md`. -/
def effectiveUrlPath (reqPath : String) : String :=
  let u := trimPrefixGo reqPath "/"
  if u = "" then "index.md" else u

/-- The clean-URL extension step of `handleMarkdown`: append `.md` when
the path ends neither in `.md` nor in a slash. -/
def extendMd (u : String) : String :=
  if !(hasSuffixGo u ".md") && !(hasSuffixGo u "/") then u ++ ".md" else u

/-- The read-and-render tail of `handleMarkdown`: `os.ReadFile` the path
(success exactly on regular files), convert with the renderer, extract the
title, set the HTML content type and execute the template. A failing read
is the 500 error response. The template parse and execute error branches
of the source are unreachable for the fixed template and are not
modeled. -/
def serveMarkdownFile (render : String → String) (h : Headers) (fs : FileSystem) (path : String) : Response :=
  match fs path with
  | some (FSEntry.file content) =>
    { status := 200
      body := composePage (extractTitle content) (render content)
      headers := headerSet h "Content-Type" "text/html" }
  | _ => httpError h "Error reading file" 500

/-- main.go `handleMarkdown`. Parameters: the server, the markdown
renderer (main.go `markdownToHTML` applied to the library), the process
working directory, the filesystem, the raw request URL path and the
response-writer header state. Returns the response paired with the trace
of every path handed to a filesystem operation (`os.Stat`, `os.ReadFile`,
`http.ServeFile`), in order. `http.ServeFile` is modeled as a 200
response with the file bytes (directory serving details of `ServeFile`
are not modeled; no claim depends on them). -/
def handleMarkdown (s : Server) (render : String → String) (cwd : String)
    (fs : FileSystem) (reqPath : String) (h : Headers) : Response × List String :=
  let urlPath := effectiveUrlPath reqPath
  if validatePath urlPath then
    if urlPath = "style.css" then
      let cssPath := joinGo [s.contentDir, "style.css"]
      if isPathSafe s cwd cssPath then
        match fs cssPath with
        | some e =>
          ({ status := 200
             body := match e with | FSEntry.file c => c | FSEntry.dir => ""
             headers := headerSet h "Content-Type" "text/css" },
           [cssPath, cssPath])
        | none => (notFoundResp h, [cssPath])
      else (httpError h "Invalid path" 400, [])
    else
      let urlPath2 := extendMd urlPath
      let filePath := joinGo [s.contentDir, urlPath2]
      if isPathSafe s cwd filePath then
        match fs filePath with
        | none =>
          if hasSuffixGo urlPath2 "/" then
            let indexPath := joinGo [s.contentDir, urlPath2, "index.md"]
            if isPathSafe s cwd indexPath then
              (serveMarkdownFile render h fs indexPath, [filePath, indexPath])
            else (httpError h "Invalid path" 400, [filePath])
          else
            let indexPath := joinGo [s.contentDir, "index.md"]
            if isPathSafe s cwd indexPath then
              match fs indexPath with
              | some _ =>
                (serveMarkdownFile render h fs indexPath,
                 [filePath, indexPath, indexPath])
              | none => (notFoundResp h, [filePath, indexPath])
            else (httpError h "Invalid path" 400, [filePath])
        | some _ => (serveMarkdownFile render h fs filePath, [filePath, filePath])
      else (httpError h "Invalid path" 400, [])
  else (httpError h "Invalid path" 400, [])


/-- A sample server configuration used for concrete instances. -/
def sampleServer : Server := ⟨"content", "8080", true⟩

/-- A sample content tree: a root index file and a `docs` directory with
its own index file. -/
def sampleFS : FileSystem := fun p =>
  if p = "content/index.md" then some (FSEntry.file "# Home")
  else if p = "content/docs" then some FSEntry.dir
  else if p = "content/docs/index.md" then some (FSEntry.file "# Docs")
  else none

/-- The empty filesystem. -/
def emptyFS : FileSystem := fun _ => none


/-! ## Helper lemmas -/

theorem hasInfixGo_correct {l p : List Char} :
    hasInfixGo l p = true ↔ p <:+: l := by
  induction l with
  | nil =>
    simp [hasInfixGo, List.isPrefixOf_iff_prefix, List.infix_nil,
      List.prefix_nil]
  | cons a t ih =>
    rw [hasInfixGo]
    simp [List.isPrefixOf_iff_prefix, List.infix_cons_iff, ih, or_comm]

theorem singleton_infix_iff_mem {c : Char} {l : List Char} :
    [c] <:+: l ↔ c ∈ l := by
  constructor
  · rintro ⟨s, t, rfl⟩
    simp
  · intro hm
    rcases List.mem_iff_append.mp hm with ⟨s, t, rfl⟩
    exact ⟨s, t, by simp⟩

/-- Shared short-circuit lemma: a URL path that fails the validator is
answered with the 400 error and an empty filesystem trace. -/
theorem handleMarkdown_invalid {s : Server} {render : String → String}
    {cwd : String} {fs : FileSystem} {reqPath : String} {h : Headers}
    (hv : validatePath (effectiveUrlPath reqPath) = false) :
    handleMarkdown s render cwd fs reqPath h = (httpError h "Invalid path" 400, []) := by
  simp [handleMarkdown, hv]

/-- Membership transport for a boolean angle-bracket-freeness check. -/
theorem no_angle_of_mem {d : Char} {l : List Char} (hd : d ∈ l)
    (hall : l.all (fun x => decide (x ≠ '<' ∧ x ≠ '>')) = true) :
    d ≠ '<' ∧ d ≠ '>' := by
  have := List.all_eq_true.mp hall d hd
  simpa using this

/-- No character emitted by the HTML escaper is an angle bracket. -/
theorem escCharGo_no_angle (c : Char) : ∀ d ∈ escCharGo c, d ≠ '<' ∧ d ≠ '>' := by
  intro d hd
  unfold escCharGo at hd
  repeat' split at hd
  all_goals
    first
      | exact no_angle_of_mem hd (by decide)
      | (rcases List.mem_singleton.mp hd with rfl
         exact ⟨by assumption, by assumption⟩)

/-- The recursion of `extractTitleLines` is the first-match scan. -/
theorem extractTitleLines_eq_find (ls : List String) :
    extractTitleLines ls =
      match ls.find? (fun l => hasPrefixGo (trimSpaceGo l) "# ") with
      | some l => trimPrefixGo (trimSpaceGo l) "# "
      | none => "Markdown Server" := by
  induction ls with
  | nil => rfl
  | cons a t ih =>
    by_cases hp : hasPrefixGo (trimSpaceGo a) "# " = true
    · simp [extractTitleLines, hp, List.find?_cons_of_pos]
    · rw [List.find?_cons_of_neg _ (by simpa using hp)]
      simp only [extractTitleLines, hp]
      simpa using ih

/-! ## Claims -/

/-- Claim C4. Path Validator characterization: the validator accepts a
URL-decoded relative path exactly when the path is free of a two-dot
run, free of a doubled separator, does not start with a separator,
contains no backslash, and every character is an ASCII letter, an ASCII
digit, a dash, an underscore, a dot or a slash. -/
theorem validatePath_characterization (p : String) :
    validatePath p = true ↔
      (¬ ['.', '.'] <:+: p.data ∧ ¬ ['/', '/'] <:+: p.data ∧
        ¬ ['/'] <+: p.data ∧ '\\' ∉ p.data ∧
        ∀ c ∈ p.data, ('a' ≤ c ∧ c ≤ 'z') ∨ ('A' ≤ c ∧ c ≤ 'Z') ∨
          ('0' ≤ c ∧ c ≤ '9') ∨ c = '-' ∨ c = '_' ∨ c = '.' ∨ c = '/') := by
  unfold validatePath containsGo hasPrefixGo
  constructor
  · intro hv
    by_cases hc :
        (hasInfixGo p.data "..".data || hasInfixGo p.data "//".data ||
          "/".data.isPrefixOf p.data || hasInfixGo p.data "\\".data) = true
    · rw [if_pos hc] at hv
      exact absurd hv (by simp)
    · rw [if_neg hc] at hv
      simp only [Bool.or_eq_true, not_or, Bool.not_eq_true] at hc
      obtain ⟨⟨⟨h1, h2⟩, h3⟩, h4⟩ := hc
      refine ⟨?_, ?_, ?_, ?_, ?_⟩
      · intro hinf
        exact absurd (hasInfixGo_correct.mpr hinf) (by simp [h1])
      · intro hinf
        exact absurd (hasInfixGo_correct.mpr hinf) (by simp [h2])
      · intro hpre
        exact absurd (List.isPrefixOf_iff_prefix.mpr hpre) (by simp [h3])
      · intro hmem
        exact absurd (hasInfixGo_correct.mpr (singleton_infix_iff_mem.mpr hmem))
          (by simp [h4])
      · intro c hc
        have := List.all_eq_true.mp hv c hc
        simpa using this
  · rintro ⟨h1, h2, h3, h4, h5⟩
    have hc :
        (hasInfixGo p.data "..".data || hasInfixGo p.data "//".data ||
          "/".data.isPrefixOf p.data || hasInfixGo p.data "\\".data) = false := by
      simp only [Bool.or_eq_false_iff]
      refine ⟨⟨⟨?_, ?_⟩, ?_⟩, ?_⟩
      · exact (Bool.not_eq_true _).mp fun hb => h1 (hasInfixGo_correct.mp hb)
      · exact (Bool.not_eq_true _).mp fun hb => h2 (hasInfixGo_correct.mp hb)
      · exact (Bool.not_eq_true _).mp fun hb => h3 (List.isPrefixOf_iff_prefix.mp hb)
      · exact (Bool.not_eq_true _).mp fun hb =>
          h4 (singleton_infix_iff_mem.mp (hasInfixGo_correct.mp hb))
    rw [hc]
    simp only [Bool.false_eq_true, if_false, List.all_eq_true]
    intro c hc
    simpa using h5 c hc

/-- Claim C8. Malformed-path short-circuit: when the trimmed, URL-decoded
request path fails the Path Validator, the handler responds 400 with body
"Invalid path" and performs no filesystem operation: the access trace is
empty. -/
theorem invalid_path_short_circuit (s : Server) (render : String → String)
    (cwd : String) (fs : FileSystem) (reqPath : String) (h : Headers)
    (hv : validatePath (effectiveUrlPath reqPath) = false) :
    (handleMarkdown s render cwd fs reqPath h).1.status = 400 ∧
    (handleMarkdown s render cwd fs reqPath h).1.body = "Invalid path" ∧
    (handleMarkdown s render cwd fs reqPath h).2 = [] := by
  rw [handleMarkdown_invalid hv]
  exact ⟨rfl, rfl, rfl⟩

/-- Witness for claim C8 at the traversal request of spec scenario 3. -/
theorem invalid_path_short_circuit_witness :
    (handleMarkdown sampleServer id "/srv" sampleFS "/../etc/passwd" []).1.status = 400 ∧
    (handleMarkdown sampleServer id "/srv" sampleFS "/../etc/passwd" []).1.body = "Invalid path" ∧
    (handleMarkdown sampleServer id "/srv" sampleFS "/../etc/passwd" []).2 = [] :=
  invalid_path_short_circuit sampleServer id "/srv" sampleFS "/../etc/passwd" [] (by decide)

/-- Claim C10. Substring-based dot-dot rejection: any request whose
effective path contains two consecutive dots anywhere — not only as a
full path segment — is answered 400 "Invalid path" with no filesystem
access, so a content file with two consecutive dots in its name is
unreachable. -/
theorem dotdot_substring_request_rejected (s : Server) (render : String → String)
    (cwd : String) (fs : FileSystem) (reqPath : String) (h : Headers)
    (hdots : ['.', '.'] <:+: (effectiveUrlPath reqPath).data) :
    (handleMarkdown s render cwd fs reqPath h).1.status = 400 ∧
    (handleMarkdown s render cwd fs reqPath h).1.body = "Invalid path" ∧
    (handleMarkdown s render cwd fs reqPath h).2 = [] := by
  have hv : validatePath (effectiveUrlPath reqPath) = false := by
    unfold validatePath containsGo
    rw [show hasInfixGo (effectiveUrlPath reqPath).data "..".data = true from
      hasInfixGo_correct.mpr hdots]
    simp
  rw [handleMarkdown_invalid hv]
  exact ⟨rfl, rfl, rfl⟩

/-- Witness for claim C10: the request for the existing file
`notes..md`, whose name contains two consecutive dots but no
parent-directory segment, is rejected and the file never read. -/
theorem dotdot_substring_request_rejected_witness :
    (handleMarkdown sampleServer id "/srv"
        (fun p => if p = "content/notes..md" then some (FSEntry.file "# Notes") else none)
        "/notes..md" []).1.status = 400 ∧
    (handleMarkdown sampleServer id "/srv"
        (fun p => if p = "content/notes..md" then some (FSEntry.file "# Notes") else none)
        "/notes..md" []).1.body = "Invalid path" ∧
    (handleMarkdown sampleServer id "/srv"
        (fun p => if p = "content/notes..md" then some (FSEntry.file "# Notes") else none)
        "/notes..md" []).2 = [] :=
  dotdot_substring_request_rejected sampleServer id "/srv" _ "/notes..md" []
    (by decide)

/-- Claim C9. Renderer determinism: the markdown conversion of main.go
passes the library nothing but constant flag words and the input bytes,
so its output is a pure function of the input: two runs under arbitrary
different process states on the same bytes yield the same string. -/
theorem markdownToHTML_deterministic (Doc : Type) (lib : MarkdownLib Doc)
    (w₁ w₂ : Nat) (md : String) :
    markdownToHTML lib w₁ md = markdownToHTML lib w₂ md := rfl

/-- Claim C7. Security Header Middleware: with the flag enabled the
middleware hands the wrapped handler the writer state with exactly the
five specified headers set (starting from a fresh writer they are exactly
those five pairs, in particular no X-Frame-Options); with the flag
disabled it forwards the writer state unchanged; in both cases the
response is whatever the wrapped handler produces, so the middleware
never rejects a request. -/
theorem securityHeadersMiddleware_contract (s : Server)
    (next : Headers → Response) (h : Headers) :
    (s.enableSecurityHeaders = true →
      securityHeadersMiddleware s next h = next (securityHeaders h)) ∧
    (s.enableSecurityHeaders = false →
      securityHeadersMiddleware s next h = next h) ∧
    securityHeaders [] =
      [("X-Content-Type-Options", "nosniff"),
       ("X-XSS-Protection", "1; mode=block"),
       ("Referrer-Policy", "strict-origin-when-cross-origin"),
       ("X-Permitted-Cross-Domain-Policies", "none"),
       ("Content-Security-Policy", cspValue)] ∧
    (securityHeaders []).all (fun p => p.1 != "X-Frame-Options") = true := by
  refine ⟨fun he => ?_, fun he => ?_, by decide, by decide⟩
  · simp [securityHeadersMiddleware, he]
  · simp [securityHeadersMiddleware, he]

/-- Witness for claim C7 at a concrete enabled server and a concrete
handler. -/
theorem securityHeadersMiddleware_contract_witness :
    securityHeadersMiddleware sampleServer (fun hs => ⟨200, "ok", hs⟩) [] =
      ⟨200, "ok", securityHeaders []⟩ :=
  (securityHeadersMiddleware_contract sampleServer (fun hs => ⟨200, "ok", hs⟩) []).1 rfl

/-- Claim C5. Page Composer escaping contract: the composed document is
the fixed shell with the title interpolated into the title element under
HTML-context escaping — the escaped title contains no angle bracket, so
markup in the title cannot open a tag — while the rendered fragment is
inserted into the main region verbatim, with no escaping or
re-encoding. -/
theorem composePage_escaping_contract (title fragment : String) :
    composePage title fragment =
      pageHeadText ++ htmlEscapeString title ++ pageMidText ++ fragment ++ pageTailText ∧
    ∀ c ∈ (htmlEscapeString title).data, c ≠ '<' ∧ c ≠ '>' := by
  constructor
  · apply String.ext
    show (String.join _).data = _
    simp [composePage, pageTemplateNodes, execTemplateNode, String.join]
  · intro c hc
    simp only [htmlEscapeString, List.mem_flatten, List.mem_map] at hc
    obtain ⟨l, ⟨d, _, rfl⟩, hcl⟩ := hc
    exact escCharGo_no_angle d c hcl

/-- Witness for claim C5: the shell equation at a concrete
injection-attempting title and a concrete fragment. -/
theorem composePage_escaping_contract_witness :
    composePage "a<b" "<p>World</p>" =
      pageHeadText ++ htmlEscapeString "a<b" ++ pageMidText ++ "<p>World</p>" ++ pageTailText :=
  (composePage_escaping_contract "a<b" "<p>World</p>").1

/-- Claim C6. Title Extractor: scanning lines from the top, the first
line whose whitespace-trimmed form begins with hash-space yields the
remainder of that trimmed line; with no such line the fixed default is
returned; and once a line matches, the lines after it are never
consulted (the result on a matching head line is independent of the
rest). A document whose sole line is a hash-space heading round-trips to
exactly its heading text. -/
theorem extractTitle_spec_conformance (content : String) :
    extractTitle content = extractTitleSpec content ∧
    (∀ line rest, hasPrefixGo (trimSpaceGo line) "# " = true →
      extractTitleLines (line :: rest) = trimPrefixGo (trimSpaceGo line) "# ") ∧
    extractTitle "# Title" = "Title" := by
  refine ⟨?_, ?_, by decide⟩
  · unfold extractTitle extractTitleSpec
    rw [extractTitleLines_eq_find]
  · intro line rest hp
    simp [extractTitleLines, hp]

/-- Witness for claim C6: a matching head line with trailing garbage
lines present. -/
theorem extractTitle_spec_conformance_witness :
    extractTitleLines ["  # A ", "# B"] = "A" :=
  ((extractTitle_spec_conformance "").2.1 "  # A " ["# B"] (by decide)).trans (by decide)

/-- Claim C1. Containment invariant: every path the handler hands to a
filesystem operation — the stat of the resolved candidate, the stat and
serve of the stylesheet, the stat of the root index fallback, and every
read, including both fallback index paths — appears in the access trace
only in branches where the containment check `isPathSafe` succeeded on
it, so every traced path passes the check and a path failing it is never
read or served. -/
theorem handler_containment_invariant (s : Server) (render : String → String)
    (cwd : String) (fs : FileSystem) (reqPath : String) (h : Headers) :
    ∀ p ∈ (handleMarkdown s render cwd fs reqPath h).2, isPathSafe s cwd p = true := by
  intro p hp
  simp only [handleMarkdown] at hp
  repeat' split at hp
  all_goals simp_all
  all_goals
    (rcases hp with rfl | rfl | rfl <;> assumption)

/-- Witness for claim C1: the first traced access of a concrete request
is containment-checked. -/
theorem handler_containment_invariant_witness :
    isPathSafe sampleServer "/srv" "content/nope.md" = true :=
  handler_containment_invariant sampleServer id "/srv" emptyFS "/nope" []
    "content/nope.md" (by decide)

/-- Claim C2 (code defect). A directory-style request for an existing
directory can never serve the index file of that directory: `os.Stat` on the
existing directory succeeds, so the index fallback (guarded by
`os.IsNotExist`) is skipped and `os.ReadFile` is attempted on the
directory itself, which fails. With `docs/index.md` present, valid and
containment-safe, the request for `/docs/` is answered 500
"Error reading file" instead of the specified 200 page. -/
theorem dir_index_request_returns_500 :
    sampleFS "content/docs/index.md" = some (FSEntry.file "# Docs") ∧
    validatePath (effectiveUrlPath "/docs/") = true ∧
    isPathSafe sampleServer "/srv" (joinGo ["content", "docs/", "index.md"]) = true ∧
    (handleMarkdown sampleServer id "/srv" sampleFS "/docs/" []).1.status = 500 ∧
    (handleMarkdown sampleServer id "/srv" sampleFS "/docs/" []).1.body = "Error reading file" :=
  ⟨rfl, by decide, by decide, by decide, by decide⟩

/-- Counterexample to claim C3 as stated: a directory-style request whose
directory (and hence its index file) does not exist is answered 500
"Error reading file", not the claimed 404: the directory branch reads the
fallback index path without any existence check. -/
theorem dir_fallback_missing_500_not_404 :
    emptyFS (joinGo ["content", "docs/"]) = none ∧
    emptyFS (joinGo ["content", "docs/", "index.md"]) = none ∧
    (handleMarkdown sampleServer id "/srv" emptyFS "/docs/" []).1.status = 500 ∧
    ¬ (handleMarkdown sampleServer id "/srv" emptyFS "/docs/" []).1.status = 404 :=
  ⟨rfl, rfl, by decide, by decide⟩

/-- Claim C3 as amended. For a validated request whose resolved candidate
does not exist: (a) a directory-style request retries with the
`index.md` inside the requested directory — that path is read with no
existence check, so when it does not exist the response is 500
"Error reading file" (not 404); (b) otherwise the handler falls back to
the content-root `index.md` when that exists as a file, responding 200
with the rendered index page; (c) otherwise (root index absent) the
response is 404 Not Found with no further fallback. -/
theorem fallback_and_not_found (s : Server) (render : String → String)
    (cwd : String) (fs : FileSystem) (reqPath : String) (h : Headers)
    (hval : validatePath (effectiveUrlPath reqPath) = true)
    (hcss : effectiveUrlPath reqPath ≠ "style.css")
    (hsafe : isPathSafe s cwd (joinGo [s.contentDir, extendMd (effectiveUrlPath reqPath)]) = true)
    (hmiss : fs (joinGo [s.contentDir, extendMd (effectiveUrlPath reqPath)]) = none) :
    (hasSuffixGo (extendMd (effectiveUrlPath reqPath)) "/" = true →
      isPathSafe s cwd (joinGo [s.contentDir, extendMd (effectiveUrlPath reqPath), "index.md"]) = true →
      ((handleMarkdown s render cwd fs reqPath h).1 =
        serveMarkdownFile render h fs
          (joinGo [s.contentDir, extendMd (effectiveUrlPath reqPath), "index.md"]) ∧
       (fs (joinGo [s.contentDir, extendMd (effectiveUrlPath reqPath), "index.md"]) = none →
        (handleMarkdown s render cwd fs reqPath h).1 = httpError h "Error reading file" 500))) ∧
    (hasSuffixGo (extendMd (effectiveUrlPath reqPath)) "/" = false →
      isPathSafe s cwd (joinGo [s.contentDir, "index.md"]) = true →
      ((∀ c, fs (joinGo [s.contentDir, "index.md"]) = some (FSEntry.file c) →
         (handleMarkdown s render cwd fs reqPath h).1 =
           { status := 200
             body := composePage (extractTitle c) (render c)
             headers := headerSet h "Content-Type" "text/html" }) ∧
       (fs (joinGo [s.contentDir, "index.md"]) = none →
         (handleMarkdown s render cwd fs reqPath h).1 = notFoundResp h))) := by
  constructor
  · intro hdir hsafe2
    have hh : (handleMarkdown s render cwd fs reqPath h).1 =
        serveMarkdownFile render h fs
          (joinGo [s.contentDir, extendMd (effectiveUrlPath reqPath), "index.md"]) := by
      simp only [handleMarkdown, hval, hcss, hmiss, hdir, hsafe, hsafe2, if_true,
        if_false]
    refine ⟨hh, fun hip => ?_⟩
    rw [hh]
    unfold serveMarkdownFile
    rw [hip]
  · intro hdir hsafe2
    have hh : (handleMarkdown s render cwd fs reqPath h).1 =
        (match fs (joinGo [s.contentDir, "index.md"]) with
          | some _ => serveMarkdownFile render h fs (joinGo [s.contentDir, "index.md"])
          | none => notFoundResp h) := by
      simp only [handleMarkdown, hval, hcss, hmiss, hdir, hsafe, hsafe2, if_true,
        if_false]
      cases fs (joinGo [s.contentDir, "index.md"]) <;> rfl
    constructor
    · intro c hip
      rw [hh, hip]
      unfold serveMarkdownFile
      rw [hip]
    · intro hip
      rw [hh, hip]

/-- Witness for amended claim C3: the missing-file request of spec
scenario 2 is answered with the rendered root index page. -/
theorem fallback_and_not_found_witness :
    (handleMarkdown sampleServer id "/srv" sampleFS "/missing" []).1 =
      { status := 200
        body := composePage (extractTitle "# Home") (id "# Home")
        headers := headerSet [] "Content-Type" "text/html" } :=
  ((fallback_and_not_found sampleServer id "/srv" sampleFS "/missing" []
      (by decide) (by decide) (by decide) (by decide)).2
    (by decide) (by decide)).1 "# Home" (by decide)
